import Mathlib

/-!
Shallow embedding of the filtered parallel catalog harvester of
`bot_boticav3.py` (the version the claims cite), together with proofs about
it.  Strings are modelled as `List Char`; Python floats carry only exact
two-decimal values here, so they are modelled as `ℚ`; the HTTP fetch is an
oracle `List Char → Option Document`; functions that issue fetches also
return the list of URLs they fetched, so that "no network call" is a
statement about the model.  The Unicode data used by `normalizar`
(`str.upper`, NFD decomposition, the `Mn` category) is modelled by finite
tables covering the character repertoire this catalog uses; characters
outside the tables behave as unmapped (identity) characters, exactly as the
corresponding Unicode code points do.
-/

/-! ## Character-level model of `str.upper`, `str.lower`, NFD and `Mn` -/

/-- Combining acute accent, U+0301. -/
def markAcute : Char := Char.ofNat 0x301

/-- Combining tilde, U+0303. -/
def markTilde : Char := Char.ofNat 0x303

/-- Combining diaeresis, U+0308. -/
def markDiaeresis : Char := Char.ofNat 0x308

/-- The `str.upper` data for the repertoire used by the program. -/
def upperTable : List (Char × Char) :=
  [('a', 'A'), ('b', 'B'), ('c', 'C'), ('d', 'D'), ('e', 'E'), ('f', 'F'),
   ('g', 'G'), ('h', 'H'), ('i', 'I'), ('j', 'J'), ('k', 'K'), ('l', 'L'),
   ('m', 'M'), ('n', 'N'), ('o', 'O'), ('p', 'P'), ('q', 'Q'), ('r', 'R'),
   ('s', 'S'), ('t', 'T'), ('u', 'U'), ('v', 'V'), ('w', 'W'), ('x', 'X'),
   ('y', 'Y'), ('z', 'Z'),
   ('á', 'Á'), ('é', 'É'), ('í', 'Í'), ('ó', 'Ó'), ('ú', 'Ú'),
   ('ñ', 'Ñ'), ('ü', 'Ü')]

/-- The `str.lower` data for the repertoire used by the program. -/
def lowerTable : List (Char × Char) :=
  [('A', 'a'), ('B', 'b'), ('C', 'c'), ('D', 'd'), ('E', 'e'), ('F', 'f'),
   ('G', 'g'), ('H', 'h'), ('I', 'i'), ('J', 'j'), ('K', 'k'), ('L', 'l'),
   ('M', 'm'), ('N', 'n'), ('O', 'o'), ('P', 'p'), ('Q', 'q'), ('R', 'r'),
   ('S', 's'), ('T', 't'), ('U', 'u'), ('V', 'v'), ('W', 'w'), ('X', 'x'),
   ('Y', 'y'), ('Z', 'z'),
   ('Á', 'á'), ('É', 'é'), ('Í', 'í'), ('Ó', 'ó'), ('Ú', 'ú'),
   ('Ñ', 'ñ'), ('Ü', 'ü')]

/-- NFD decompositions for the repertoire used by the program. -/
def nfdTable : List (Char × List Char) :=
  [('Á', ['A', markAcute]), ('É', ['E', markAcute]), ('Í', ['I', markAcute]),
   ('Ó', ['O', markAcute]), ('Ú', ['U', markAcute]),
   ('á', ['a', markAcute]), ('é', ['e', markAcute]), ('í', ['i', markAcute]),
   ('ó', ['o', markAcute]), ('ú', ['u', markAcute]),
   ('Ñ', ['N', markTilde]), ('ñ', ['n', markTilde]),
   ('Ü', ['U', markDiaeresis]), ('ü', ['u', markDiaeresis])]

/-- Lookup in a character table; `none` for an unmapped character. -/
def lookupTab {α : Type} (t : List (Char × α)) (c : Char) : Option α :=
  (t.find? (fun p => p.1 == c)).map (fun p => p.2)

/-- One character of `str.upper`. -/
def upperChar (c : Char) : Char := (lookupTab upperTable c).getD c

/-- One character of `str.lower`. -/
def lowerChar (c : Char) : Char := (lookupTab lowerTable c).getD c

/-- NFD decomposition of one character. -/
def nfdChar (c : Char) : List Char := (lookupTab nfdTable c).getD [c]

/-- `unicodedata.category(c) == 'Mn'`: the combining diacritical marks block
U+0300..U+036F (every code point of that block has category Mn). -/
def isMn (c : Char) : Bool := decide (0x300 ≤ c.toNat ∧ c.toNat ≤ 0x36F)

/-- `texto.upper()`. -/
def pyUpper (s : List Char) : List Char := s.map upperChar

/-- `texto.lower()`. -/
def pyLower (s : List Char) : List Char := s.map lowerChar

/-- `unicodedata.normalize('NFD', texto)`. -/
def pyNFD : List Char → List Char
  | [] => []
  | c :: cs => nfdChar c ++ pyNFD cs

/-- `normalizar` (bot_boticav3.py, lines 46-63), string branch:
`texto = texto.upper()` then
`''.join(c for c in unicodedata.normalize('NFD', texto)
         if unicodedata.category(c) != 'Mn')`. -/
def normalizar (s : List Char) : List Char :=
  (pyNFD (pyUpper s)).filter (fun c => !isMn c)

/-- A Python value passed to `normalizar`: a string, or anything else. -/
inductive PyVal where
  | str : List Char → PyVal
  | other : PyVal

/-- `normalizar` with its `isinstance(texto, str)` guard:
non-text input yields the empty string. -/
def normalizarPy : PyVal → List Char
  | .str s => normalizar s
  | .other => []

/-! ## Generic string helpers (Python `in`, `startswith`, `strip`, ...) -/

/-- Python substring test `needle in hay`. -/
def containsSub (needle : List Char) : List Char → Bool
  | [] => needle.isEmpty
  | c :: rest => needle.isPrefixOf (c :: rest) || containsSub needle rest

/-- Strip a class of characters from both ends (Python `str.strip`). -/
def stripEnds (p : Char → Bool) (s : List Char) : List Char :=
  ((s.dropWhile p).reverse.dropWhile p).reverse

/-- Python whitespace, as far as this program's inputs go. -/
def isSpaceChar (c : Char) : Bool :=
  c == ' ' || c == '\t' || c == '\n' || c == '\r'

/-- `linea.strip()`. -/
def pyStrip (s : List Char) : List Char := stripEnds isSpaceChar s

/-- Python `s.split(sep)` for a one-character separator. -/
def splitChar (sep : Char) : List Char → List (List Char)
  | [] => [[]]
  | c :: rest =>
    if c == sep then [] :: splitChar sep rest
    else
      match splitChar sep rest with
      | [] => [[c]]
      | w :: ws => (c :: w) :: ws

/-- Python `s.replace(a, b)` for one-character arguments. -/
def replaceChar (a b : Char) (s : List Char) : List Char :=
  s.map (fun c => if c == a then b else c)

/-- A character Python `str.title` treats as cased. -/
def isCased (c : Char) : Bool :=
  (lookupTab upperTable c).isSome || (lookupTab lowerTable c).isSome

/-- `str.title`, tracking whether the previous character was cased. -/
def pyTitleGo : Bool → List Char → List Char
  | _, [] => []
  | prevCased, c :: rest =>
    (if isCased c then (if prevCased then lowerChar c else upperChar c) else c)
      :: pyTitleGo (isCased c) rest

/-- Python `s.title()`. -/
def pyTitle (s : List Char) : List Char := pyTitleGo false s

/-! ## The MINSA name filter -/

/-- `cumple_filtro_minsa` (bot_boticav3.py, lines 88-107): the loop body is
`f" {med} " in f" {nombre_norm} " or nombre_norm.startswith(f"{med} ")
 or med == nombre_norm`. -/
def cumple_filtro_minsa (lista : List (List Char)) (nombre : List Char) : Bool :=
  let nombreNorm := normalizar nombre
  lista.any fun med =>
    containsSub (' ' :: (med ++ [' '])) (' ' :: (nombreNorm ++ [' '])) ||
    (med ++ [' ']).isPrefixOf nombreNorm ||
    med == nombreNorm

/-- Python `set.add`, on a list kept duplicate-free in insertion order. -/
def setAdd (s : List (List Char)) (x : List Char) : List (List Char) :=
  if x ∈ s then s else s ++ [x]

/-- `cargar_filtro_txt` (bot_boticav3.py, lines 66-86), over the file's
lines: `med = linea.strip()`, and only `if len(med) > 3` is
`normalizar(med)` added to the set. -/
def cargar_filtro_txt (lines : List (List Char)) : List (List Char) :=
  lines.foldl
    (fun acc linea =>
      if 3 < (pyStrip linea).length then setAdd acc (normalizar (pyStrip linea))
      else acc)
    []

/-! ## The price parser -/

/-- ASCII decimal digit (what `\d` matches in these labels). -/
def isDigitChar (c : Char) : Bool := '0' ≤ c && c ≤ '9'

/-- Numeric value of a digit string. -/
def digitsVal (ds : List Char) : Nat :=
  ds.foldl (fun a c => a * 10 + (c.toNat - 48)) 0

/-- One attempt of the regex `\d+\.\d{2}` anchored at the head of the
input: a maximal nonempty digit run, a dot, then exactly two digits (for
this pattern, maximal munch of `\d+` is equivalent to backtracking).
Returns the value matched and the rest of the input after the match. -/
def matchNumAt (cs : List Char) : Option (ℚ × List Char) :=
  let ds := cs.takeWhile isDigitChar
  let rest := cs.dropWhile isDigitChar
  if ds.isEmpty then none
  else
    match rest with
    | '.' :: d1 :: d2 :: rest2 =>
      if isDigitChar d1 && isDigitChar d2 then
        some ((digitsVal ds : ℚ) + (digitsVal [d1, d2] : ℚ) / 100, rest2)
      else none
    | _ => none

/-- `re.findall(r'(\d+\.\d{2})', texto)`, values converted by `float`:
leftmost non-overlapping matches, scanning resumes after each match.
`fuel` bounds the recursion; the callers pass the input's length, which
always suffices since every step consumes at least one character. -/
def findNums : Nat → List Char → List ℚ
  | 0, _ => []
  | _ + 1, [] => []
  | fuel + 1, c :: cs =>
    match matchNumAt (c :: cs) with
    | some (v, rest) => v :: findNums fuel rest
    | none => findNums fuel cs

/-- `analizar_precios` (bot_boticav3.py, lines 110-134): empty text or no
match yields `(0.0, 0.0)`, otherwise `(min(valores), max(valores))`. -/
def analizar_precios (texto : List Char) : ℚ × ℚ :=
  if texto.isEmpty then (0, 0)
  else
    match findNums texto.length texto with
    | [] => (0, 0)
    | v :: vs => (vs.foldl min v, vs.foldl max v)

/-! ## Documents, as far as the program's selectors read them -/

/-- One `div.wd-accordion-item`: the text of its `.wd-accordion-title-text`
and of its `.woocommerce-Tabs-panel` (space-joined, stripped), when the
sub-elements are present. -/
structure AccordionItem where
  title : Option (List Char)
  content : Option (List Char)

/-- One `tr.woocommerce-product-attributes-item`: the stripped text of its
`th` and `td` cells, when present. -/
structure AttrRow where
  th : Option (List Char)
  td : Option (List Char)

/-- One `div.wd-product` on a listing page: the `.wd-entities-title a`
element as (text, href) when present, and the `.price` text when present. -/
structure ProductCard where
  titleLink : Option (List Char × List Char)
  priceText : Option (List Char)

/-- A parsed page, holding exactly what the program's selectors extract:
accordion items, attribute rows, product cards, and whether a `.next`
element exists. -/
structure Document where
  accordions : List AccordionItem
  attrRows : List AttrRow
  products : List ProductCard
  hasNext : Bool

/-! ## The `info_adicional` dictionary -/

/-- A Python dict of string keys and values, in insertion order. -/
abbrev Dict := List (List Char × List Char)

/-- Python `d[k]` as an option. -/
def dictGet? : Dict → List Char → Option (List Char)
  | [], _ => none
  | (k, v) :: rest, key => if k = key then some v else dictGet? rest key

/-- Python `d[k] = v`: overwrite in place, or append a new key. -/
def dictSet : Dict → List Char → List Char → Dict
  | [], key, v => [(key, v)]
  | (k, w) :: rest, key, v =>
    if k = key then (key, v) :: rest else (k, w) :: dictSet rest key v

/-- The sentinel `'No especificado'`. -/
def SENTINEL : List Char := "No especificado".data

def kRegistro : List Char := "Registro Sanitario".data
def kComposicion : List Char := "Composición".data
def kDescripcion : List Char := "Descripción".data
def kAdvertencias : List Char := "Advertencias".data
def kContra : List Char := "Contraindicaciones".data

/-- The five detail keys, in the order the source initializes them. -/
def fiveKeys : List (List Char) :=
  [kRegistro, kComposicion, kDescripcion, kAdvertencias, kContra]

/-- The default `info_adicional` dictionary (bot_boticav3.py, lines 231-237). -/
def infoDefaults : Dict :=
  [(kRegistro, SENTINEL), (kComposicion, SENTINEL), (kDescripcion, SENTINEL),
   (kAdvertencias, SENTINEL), (kContra, SENTINEL)]

/-- One iteration of the accordion pass (bot_boticav3.py, lines 242-258):
both sub-elements must be present; the lowered title is tested by substring
against the keyword chain `descripci` / `advertencia` / `contraindicaci` /
`composici` (an `elif` chain). -/
def acordeonStep (info : Dict) (item : AccordionItem) : Dict :=
  match item.title, item.content with
  | some t, some contenido =>
    if containsSub "descripci".data (pyLower t) then dictSet info kDescripcion contenido
    else if containsSub "advertencia".data (pyLower t) then dictSet info kAdvertencias contenido
    else if containsSub "contraindicaci".data (pyLower t) then dictSet info kContra contenido
    else if containsSub "composici".data (pyLower t) then dictSet info kComposicion contenido
    else info
  | _, _ => info

/-- One iteration of the attributes-table pass (bot_boticav3.py, lines
262-273): both cells must be present; `if 'registro' in label` sets the
registration field, `elif 'composici' in label and composition is still the
sentinel` sets the composition field. -/
def tablaStep (info : Dict) (row : AttrRow) : Dict :=
  match row.th, row.td with
  | some thT, some valor =>
    if containsSub "registro".data (pyLower thT) then dictSet info kRegistro valor
    else if containsSub "composici".data (pyLower thT)
            && (dictGet? info kComposicion == some SENTINEL) then
      dictSet info kComposicion valor
    else info
  | _, _ => info

/-- The detail-extraction step of `procesar_producto_individual`
(bot_boticav3.py, lines 230-273): defaults, then the accordion pass, then
the attributes-table pass; a failed fetch (`soup` is `None`) keeps the
defaults. -/
def extraerInfo (soup : Option Document) : Dict :=
  match soup with
  | none => infoDefaults
  | some doc => doc.attrRows.foldl tablaStep (doc.accordions.foldl acordeonStep infoDefaults)

/-! ## The worker -/

/-- The `datos_base` dictionary a worker receives (bot_boticav3.py, lines
334-340): category label, name, parsed price range, detail URL. -/
structure DatosBase where
  categoria : List Char
  nombre : List Char
  precioMin : ℚ
  precioMax : ℚ
  url : List Char

/-- A full product record: the base data enriched with `info_adicional`. -/
structure Registro where
  base : DatosBase
  info : Dict

/-- `procesar_producto_individual` (bot_boticav3.py, lines 202-282),
parameterized by the fetch oracle.  The second component is the list of
URLs this call fetched, in order.  Step 1 checks the filter before any
network call; the `time.sleep` pacing has no observable effect here. -/
def procesar_producto_individual (lista : List (List Char))
    (fetch : List Char → Option Document) (datos : DatosBase) :
    Option Registro × List (List Char) :=
  if cumple_filtro_minsa lista datos.nombre then
    (some ⟨datos, extraerInfo (fetch datos.url)⟩, [datos.url])
  else (none, [])

/-! ## The category paginator and the main flow -/

/-- The pagination safety ceiling (bot_boticav3.py, line 298). -/
def MAX_PAGES : Nat := 100

/-- `url_actual = url_cat if page == 1 else f"{url_cat}page/{page}/"`. -/
def pageURL (urlCat : List Char) (page : Nat) : List Char :=
  if page = 1 then urlCat
  else urlCat ++ "page/".data ++ (Nat.repr page).data ++ "/".data

/-- `nombre_cat = url_cat.strip('/').split('/')[-1].replace('-', ' ').title()`. -/
def nombreCategoria (urlCat : List Char) : List Char :=
  pyTitle (replaceChar '-' ' '
    ((splitChar '/' (stripEnds (fun c => c == '/') urlCat)).getLastD []))

/-- Fase A (bot_boticav3.py, lines 323-341): build the page's task list;
cards without a title link are skipped, the price text is parsed here. -/
def extractTareas (nomCat : List Char) (products : List ProductCard) :
    List DatosBase :=
  products.filterMap fun prod =>
    match prod.titleLink with
    | none => none
    | some (nombre, href) =>
      some { categoria := nomCat, nombre := nombre,
             precioMin := (analizar_precios (prod.priceText.getD [])).1,
             precioMax := (analizar_precios (prod.priceText.getD [])).2,
             url := href }

/-- Fase B: the worker pool; `executor.map` preserves submission order, so
it is a sequential map here. -/
def pageResults (lista : List (List Char)) (fetch : List Char → Option Document)
    (nomCat : List Char) (soup : Document) :
    List (Option Registro × List (List Char)) :=
  (extractTareas nomCat soup.products).map (procesar_producto_individual lista fetch)

/-- Fase C: the records kept from one page (`None` results dropped). -/
def pageRecords (lista : List (List Char)) (fetch : List Char → Option Document)
    (nomCat : List Char) (soup : Document) : List Registro :=
  (pageResults lista fetch nomCat soup).filterMap Prod.fst

/-- The detail URLs the workers of one page fetched, in submission order. -/
def pageDetails (lista : List (List Char)) (fetch : List Char → Option Document)
    (nomCat : List Char) (soup : Document) : List (List Char) :=
  ((pageResults lista fetch nomCat soup).map Prod.snd).foldl (· ++ ·) []

/-- What one category's crawl produced: its records, the listing pages it
requested as (page number, URL) in order, and the detail URLs fetched. -/
structure CatResult where
  records : List Registro
  pagesFetched : List (Nat × List Char)
  detailFetched : List (List Char)

def appendCR (a b : CatResult) : CatResult :=
  ⟨a.records ++ b.records, a.pagesFetched ++ b.pagesFetched,
   a.detailFetched ++ b.detailFetched⟩

/-- The `while page <= MAX_PAGES` loop of `procesar_categoria`
(bot_boticav3.py, lines 297-364): fetch the page (stop on failure), stop on
an empty product grid, process the page, stop when no `.next` element
exists, else move to the next page.  Structural recursion on `fuel`, which
the wrapper starts at `MAX_PAGES + 1` so that it never runs out before the
`page > MAX_PAGES` guard fires. -/
def catLoop (lista : List (List Char)) (fetch : List Char → Option Document)
    (urlCat nomCat : List Char) : Nat → Nat → CatResult
  | 0, _ => ⟨[], [], []⟩
  | fuel + 1, page =>
    if MAX_PAGES < page then ⟨[], [], []⟩
    else
      match fetch (pageURL urlCat page) with
      | none => ⟨[], [(page, pageURL urlCat page)], []⟩
      | some soup =>
        if soup.products.isEmpty then ⟨[], [(page, pageURL urlCat page)], []⟩
        else
          if soup.hasNext then
            appendCR
              ⟨pageRecords lista fetch nomCat soup, [(page, pageURL urlCat page)],
               pageDetails lista fetch nomCat soup⟩
              (catLoop lista fetch urlCat nomCat fuel (page + 1))
          else
            ⟨pageRecords lista fetch nomCat soup, [(page, pageURL urlCat page)],
             pageDetails lista fetch nomCat soup⟩

/-- `procesar_categoria` (bot_boticav3.py, lines 289-364). -/
def procesar_categoria (lista : List (List Char))
    (fetch : List Char → Option Document) (urlCat : List Char) : CatResult :=
  catLoop lista fetch urlCat (nombreCategoria urlCat) (MAX_PAGES + 1) 1

/-- The `__main__` flow over the discovered categories (bot_boticav3.py,
lines 384-385 and 388-399): each category's records are appended to
`DATOS_RECOPILADOS`, which is then exported as-is. -/
def mainRun (lista : List (List Char)) (fetch : List Char → Option Document)
    (cats : List (List Char)) : List Registro :=
  cats.foldl (fun acc c => acc ++ (procesar_categoria lista fetch c).records) []

/-! ## Facts about `normalizar` -/

/-- What `normalizar` does to one input character. -/
def normStep (c : Char) : List Char :=
  (nfdChar (upperChar c)).filter (fun d => !isMn d)

/-- A character `normalizar` maps to itself (and keeps). -/
def normFixed (c : Char) : Prop :=
  upperChar c = c ∧ nfdChar c = [c] ∧ isMn c = false

instance (c : Char) : Decidable (normFixed c) := by
  unfold normFixed
  infer_instance

lemma normalizar_cons (c : Char) (cs : List Char) :
    normalizar (c :: cs) = normStep c ++ normalizar cs := by
  simp [normalizar, pyUpper, pyNFD, normStep, List.filter_append]

lemma lookupTab_cases {α : Type} (t : List (Char × α)) (c : Char) :
    lookupTab t c = none ∨ ∃ p ∈ t, p.1 = c ∧ lookupTab t c = some p.2 := by
  unfold lookupTab
  cases h : t.find? (fun p => p.1 == c) with
  | none => simp
  | some p =>
    right
    refine ⟨p, List.mem_of_find?_eq_some h, ?_, by simp⟩
    simpa using List.find?_some h

lemma upperTable_fixed : ∀ p ∈ upperTable, upperChar p.2 = p.2 := by decide

lemma upperChar_idem (c : Char) : upperChar (upperChar c) = upperChar c := by
  rcases lookupTab_cases upperTable c with h | ⟨p, hp, _, h⟩
  · simp [upperChar, h]
  · have hc : upperChar c = p.2 := by simp [upperChar, h]
    rw [hc]
    exact upperTable_fixed p hp

lemma nfdTable_fixed :
    ∀ p ∈ nfdTable, upperChar p.1 = p.1 → ∀ d ∈ p.2, isMn d = false → normFixed d := by
  decide

lemma normStep_fixed {c d : Char} (hd : d ∈ normStep c) : normFixed d := by
  unfold normStep at hd
  rw [List.mem_filter] at hd
  obtain ⟨hmem, hmn⟩ := hd
  have hmn' : isMn d = false := by simpa using hmn
  rcases lookupTab_cases nfdTable (upperChar c) with h | ⟨p, hp, hfst, h⟩
  · rw [show nfdChar (upperChar c) = [upperChar c] from by simp [nfdChar, h]] at hmem
    rcases List.mem_singleton.mp hmem with rfl
    exact ⟨upperChar_idem c, by simp [nfdChar, h], hmn'⟩
  · rw [show nfdChar (upperChar c) = p.2 from by simp [nfdChar, h]] at hmem
    exact nfdTable_fixed p hp (by rw [hfst]; exact upperChar_idem c) d hmem hmn'

lemma normalizar_of_fixed : ∀ l : List Char, (∀ c ∈ l, normFixed c) → normalizar l = l := by
  intro l
  induction l with
  | nil => intro _; rfl
  | cons c cs ih =>
    intro h
    obtain ⟨h1, h2, h3⟩ := h c (List.mem_cons_self c cs)
    rw [normalizar_cons, normStep, h1, h2]
    simp [h3, ih (fun x hx => h x (List.mem_cons_of_mem c hx))]

lemma mem_normalizar_fixed : ∀ (s : List Char) (c : Char), c ∈ normalizar s → normFixed c := by
  intro s
  induction s with
  | nil => intro c hc; simp [normalizar, pyUpper, pyNFD] at hc
  | cons a as ih =>
    intro c hc
    rw [normalizar_cons] at hc
    rcases List.mem_append.mp hc with h | h
    · exact normStep_fixed h
    · exact ih c h

lemma normalizar_idem (s : List Char) : normalizar (normalizar s) = normalizar s :=
  normalizar_of_fixed _ (mem_normalizar_fixed s)

/-- C9: `normalizar` is a pure total function: non-text input yields the
empty string; every output character is uppercase (fixed by `upperChar`)
with all combining marks removed; `normalizar` is idempotent on every
input; and `normalizar "Ácido" = normalizar "ACIDO"`. -/
theorem claim9_normalizar :
    normalizarPy PyVal.other = []
  ∧ (∀ (s : List Char) (c : Char), c ∈ normalizar s → isMn c = false ∧ upperChar c = c)
  ∧ (∀ v : PyVal, normalizarPy (PyVal.str (normalizarPy v)) = normalizarPy v)
  ∧ normalizar "Ácido".data = normalizar "ACIDO".data := by
  refine ⟨rfl, ?_, ?_, by decide⟩
  · intro s c hc
    obtain ⟨h1, _, h3⟩ := mem_normalizar_fixed s c hc
    exact ⟨h3, h1⟩
  · intro v
    cases v with
    | str s => exact normalizar_idem s
    | other => rfl

/-- C10: the filter decision depends only on the normalized form of the
candidate: `cumple_filtro_minsa` gives the same answer on `normalizar x`
as on `x`, for every reference list — so matching is insensitive to case
and diacritics in the candidate name. -/
theorem claim10_filter_normalized :
    ∀ (lista : List (List Char)) (nombre : List Char),
      cumple_filtro_minsa lista (normalizar nombre) = cumple_filtro_minsa lista nombre := by
  intro lista nombre
  simp only [cumple_filtro_minsa, normalizar_idem]

/-! ## Characterizing the Boolean string tests -/

lemma isPrefixOf_iff : ∀ a b : List Char, a.isPrefixOf b = true ↔ ∃ t, b = a ++ t := by
  intro a
  induction a with
  | nil => intro b; simp [List.isPrefixOf]
  | cons c cs ih =>
    intro b
    cases b with
    | nil => simp [List.isPrefixOf]
    | cons d ds =>
      simp only [List.isPrefixOf, Bool.and_eq_true, beq_iff_eq]
      constructor
      · rintro ⟨rfl, hpre⟩
        obtain ⟨t, rfl⟩ := (ih ds).mp hpre
        exact ⟨t, rfl⟩
      · rintro ⟨t, ht⟩
        injection ht with h1 h2
        exact ⟨h1.symm, (ih ds).mpr ⟨t, h2⟩⟩

lemma containsSub_iff (needle : List Char) :
    ∀ hay : List Char, containsSub needle hay = true ↔ ∃ s t, hay = s ++ needle ++ t := by
  intro hay
  induction hay with
  | nil =>
    simp only [containsSub, List.isEmpty_iff]
    constructor
    · rintro rfl
      exact ⟨[], [], rfl⟩
    · rintro ⟨s, t, h⟩
      have := List.append_eq_nil.mp h.symm
      exact (List.append_eq_nil.mp this.1).2
  | cons c rest ih =>
    simp only [containsSub, Bool.or_eq_true]
    constructor
    · rintro (h | h)
      · obtain ⟨t, ht⟩ := (isPrefixOf_iff needle (c :: rest)).mp h
        exact ⟨[], t, by simpa using ht⟩
      · obtain ⟨s, t, ht⟩ := ih.mp h
        exact ⟨c :: s, t, by simp [ht]⟩
    · rintro ⟨s, t, ht⟩
      cases s with
      | nil =>
        exact Or.inl ((isPrefixOf_iff needle (c :: rest)).mpr ⟨t, by simpa using ht⟩)
      | cons d s2 =>
        simp only [List.cons_append, List.cons.injEq] at ht
        exact Or.inr (ih.mpr ⟨s2, t, ht.2⟩)

/-- C2: `cumple_filtro_minsa` is true exactly when the normalized candidate
equals some reference entry, or starts with a reference entry followed by a
space, or contains a reference entry as a space-delimited whole word (the
entry wrapped in spaces, tested against the space-padded candidate); in
particular `"ENSALADA"` does not match reference `"SAL"`, while
`"SAL DE FRUTA"` does. -/
theorem claim2_matches :
    (∀ (lista : List (List Char)) (nombre : List Char),
      cumple_filtro_minsa lista nombre = true ↔
        ∃ med ∈ lista,
          normalizar nombre = med
          ∨ (∃ t, normalizar nombre = med ++ ' ' :: t)
          ∨ (∃ s t, ' ' :: (normalizar nombre ++ [' '])
              = s ++ (' ' :: (med ++ [' '])) ++ t))
  ∧ cumple_filtro_minsa ["SAL".data] "ENSALADA".data = false
  ∧ cumple_filtro_minsa ["SAL".data] "SAL DE FRUTA".data = true := by
  refine ⟨?_, by decide, by decide⟩
  intro lista nombre
  simp only [cumple_filtro_minsa]
  rw [List.any_eq_true]
  constructor
  · rintro ⟨med, hmed, hp⟩
    refine ⟨med, hmed, ?_⟩
    rw [Bool.or_eq_true, Bool.or_eq_true] at hp
    rcases hp with (h | h) | h
    · exact Or.inr (Or.inr ((containsSub_iff _ _).mp h))
    · obtain ⟨t, ht⟩ := (isPrefixOf_iff _ _).mp h
      exact Or.inr (Or.inl ⟨t, by simpa [List.append_assoc] using ht⟩)
    · exact Or.inl (beq_iff_eq.mp h).symm
  · rintro ⟨med, hmed, hp⟩
    refine ⟨med, hmed, ?_⟩
    rw [Bool.or_eq_true, Bool.or_eq_true]
    rcases hp with h | ⟨t, ht⟩ | h
    · exact Or.inr (beq_iff_eq.mpr h.symm)
    · exact Or.inl (Or.inr ((isPrefixOf_iff _ _).mpr
        ⟨t, by simpa [List.append_assoc] using ht⟩))
    · exact Or.inl (Or.inl ((containsSub_iff _ _).mpr h))

/-- C3: a worker given a candidate whose name fails the filter returns
`None` with an empty fetch log, for every fetch oracle — so the result is
independent of the oracle and no network call is issued. -/
theorem claim3_worker_no_fetch :
    ∀ (lista : List (List Char)) (fetch : List Char → Option Document) (datos : DatosBase),
      cumple_filtro_minsa lista datos.nombre = false →
      procesar_producto_individual lista fetch datos = (none, []) := by
  intro lista fetch datos h
  unfold procesar_producto_individual
  rw [if_neg (by simp [h])]

/-- The no-fetch theorem at a concrete filtered-out candidate. -/
theorem claim3_witness :
    procesar_producto_individual [] (fun _ => none)
      ⟨[], "Chocolate con leche".data, 0, 0, "https://x/p/choco/".data⟩ = (none, []) :=
  claim3_worker_no_fetch [] (fun _ => none) _ (by decide)

/-! ## Facts about `analizar_precios` -/

lemma foldl_min_le : ∀ (xs : List ℚ) (x v : ℚ), v ∈ x :: xs → xs.foldl min x ≤ v := by
  intro xs
  induction xs with
  | nil =>
    intro x v hv
    rcases List.mem_singleton.mp hv with rfl
    exact le_refl _
  | cons y ys ih =>
    intro x v hv
    rcases List.mem_cons.mp hv with rfl | hv2
    · exact le_trans (ih (min v y) _ (List.mem_cons_self _ _)) (min_le_left v y)
    · rcases List.mem_cons.mp hv2 with rfl | hv3
      · exact le_trans (ih (min x v) _ (List.mem_cons_self _ _)) (min_le_right x v)
      · exact ih (min x y) v (List.mem_cons_of_mem _ hv3)

lemma le_foldl_max : ∀ (xs : List ℚ) (x v : ℚ), v ∈ x :: xs → v ≤ xs.foldl max x := by
  intro xs
  induction xs with
  | nil =>
    intro x v hv
    rcases List.mem_singleton.mp hv with rfl
    exact le_refl _
  | cons y ys ih =>
    intro x v hv
    rcases List.mem_cons.mp hv with rfl | hv2
    · exact le_trans (le_max_left v y) (ih (max v y) _ (List.mem_cons_self _ _))
    · rcases List.mem_cons.mp hv2 with rfl | hv3
      · exact le_trans (le_max_right x v) (ih (max x v) _ (List.mem_cons_self _ _))
      · exact ih (max x y) v (List.mem_cons_of_mem _ hv3)

lemma foldl_min_mem : ∀ (xs : List ℚ) (x : ℚ), xs.foldl min x ∈ x :: xs := by
  intro xs
  induction xs with
  | nil => intro x; exact List.mem_singleton.mpr rfl
  | cons y ys ih =>
    intro x
    rcases List.mem_cons.mp (ih (min x y)) with h | h
    · rcases min_choice x y with hc | hc
      · rw [show (y :: ys).foldl min x = ys.foldl min (min x y) from rfl, h, hc]
        exact List.mem_cons_self _ _
      · rw [show (y :: ys).foldl min x = ys.foldl min (min x y) from rfl, h, hc]
        exact List.mem_cons_of_mem _ (List.mem_cons_self _ _)
    · exact List.mem_cons_of_mem _ (List.mem_cons_of_mem _ h)

lemma foldl_max_mem : ∀ (xs : List ℚ) (x : ℚ), xs.foldl max x ∈ x :: xs := by
  intro xs
  induction xs with
  | nil => intro x; exact List.mem_singleton.mpr rfl
  | cons y ys ih =>
    intro x
    rcases List.mem_cons.mp (ih (max x y)) with h | h
    · rcases max_choice x y with hc | hc
      · rw [show (y :: ys).foldl max x = ys.foldl max (max x y) from rfl, h, hc]
        exact List.mem_cons_self _ _
      · rw [show (y :: ys).foldl max x = ys.foldl max (max x y) from rfl, h, hc]
        exact List.mem_cons_of_mem _ (List.mem_cons_self _ _)
    · exact List.mem_cons_of_mem _ (List.mem_cons_of_mem _ h)

/-- C8: `analizar_precios` returns `(12.50, 12.50)` on `"S/ 12.50"`,
`(10.00, 20.00)` on `"S/ 10.00 - S/ 20.00"`, `(0, 0)` on `"Agotado"`; and
in general it returns `(0, 0)` exactly when the scan finds no
two-decimal number, and otherwise the minimum and maximum of the values
the scan extracted (both of which are themselves extracted values). -/
theorem claim8_precios :
    analizar_precios "S/ 12.50".data = (12.50, 12.50)
  ∧ analizar_precios "S/ 10.00 - S/ 20.00".data = (10.00, 20.00)
  ∧ analizar_precios "Agotado".data = (0, 0)
  ∧ (∀ s : List Char, findNums s.length s = [] → analizar_precios s = (0, 0))
  ∧ (∀ (s : List Char) (v : ℚ), v ∈ findNums s.length s →
      (analizar_precios s).1 ≤ v ∧ v ≤ (analizar_precios s).2)
  ∧ (∀ s : List Char, findNums s.length s ≠ [] →
      (analizar_precios s).1 ∈ findNums s.length s
      ∧ (analizar_precios s).2 ∈ findNums s.length s) := by
  refine ⟨?_, ?_, ?_, ?_, ?_, ?_⟩
  · simp +decide [analizar_precios, findNums, matchNumAt, digitsVal, isDigitChar]
    norm_num
  · simp +decide [analizar_precios, findNums, matchNumAt, digitsVal, isDigitChar,
      min_def, max_def]
    norm_num
  · simp +decide [analizar_precios, findNums, matchNumAt, digitsVal, isDigitChar]
  · intro s h
    cases s with
    | nil => rfl
    | cons c cs =>
      unfold analizar_precios
      rw [if_neg (by simp), h]
  · intro s v hv
    cases s with
    | nil => simp [findNums] at hv
    | cons c cs =>
      cases hn : findNums (c :: cs).length (c :: cs) with
      | nil => rw [hn] at hv; simp at hv
      | cons n ns =>
        rw [hn] at hv
        have ha : analizar_precios (c :: cs) = (ns.foldl min n, ns.foldl max n) := by
          unfold analizar_precios
          rw [if_neg (by simp), hn]
        rw [ha]
        exact ⟨foldl_min_le ns n v hv, le_foldl_max ns n v hv⟩
  · intro s hne
    cases s with
    | nil => exact absurd rfl hne
    | cons c cs =>
      cases hn : findNums (c :: cs).length (c :: cs) with
      | nil => exact absurd hn hne
      | cons n ns =>
        have ha : analizar_precios (c :: cs) = (ns.foldl min n, ns.foldl max n) := by
          unfold analizar_precios
          rw [if_neg (by simp), hn]
        rw [ha]
        exact ⟨foldl_min_mem ns n, foldl_max_mem ns n⟩

/-! ## Facts about `cargar_filtro_txt` -/

lemma mem_setAdd {s : List (List Char)} {x y : List Char} :
    y ∈ setAdd s x ↔ y ∈ s ∨ y = x := by
  unfold setAdd
  split_ifs with h
  · constructor
    · exact Or.inl
    · rintro (hy | rfl)
      · exact hy
      · exact h
  · simp [List.mem_append]

lemma cargar_mem_go :
    ∀ (lines : List (List Char)) (acc : List (List Char)) (x : List Char),
      x ∈ lines.foldl
        (fun acc linea =>
          if 3 < (pyStrip linea).length then setAdd acc (normalizar (pyStrip linea))
          else acc) acc
      ↔ x ∈ acc ∨ ∃ l ∈ lines, 3 < (pyStrip l).length ∧ x = normalizar (pyStrip l) := by
  intro lines
  induction lines with
  | nil => intro acc x; simp
  | cons l ls ih =>
    intro acc x
    rw [List.foldl_cons]
    by_cases h : 3 < (pyStrip l).length
    · rw [if_pos h, ih]
      constructor
      · rintro (hx | ⟨l2, hl2, hlen, hx⟩)
        · rcases mem_setAdd.mp hx with hx | rfl
          · exact Or.inl hx
          · exact Or.inr ⟨l, List.mem_cons_self _ _, h, rfl⟩
        · exact Or.inr ⟨l2, List.mem_cons_of_mem _ hl2, hlen, hx⟩
      · rintro (hx | ⟨l2, hl2, hlen, hx⟩)
        · exact Or.inl (mem_setAdd.mpr (Or.inl hx))
        · rcases List.mem_cons.mp hl2 with rfl | hl2
          · exact Or.inl (mem_setAdd.mpr (Or.inr hx))
          · exact Or.inr ⟨l2, hl2, hlen, hx⟩
    · rw [if_neg h, ih]
      constructor
      · rintro (hx | ⟨l2, hl2, hlen, hx⟩)
        · exact Or.inl hx
        · exact Or.inr ⟨l2, List.mem_cons_of_mem _ hl2, hlen, hx⟩
      · rintro (hx | ⟨l2, hl2, hlen, hx⟩)
        · exact Or.inl hx
        · rcases List.mem_cons.mp hl2 with rfl | hl2
          · exact absurd hlen h
          · exact Or.inr ⟨l2, hl2, hlen, hx⟩

/-- C4 (amended): `cargar_filtro_txt` produces exactly the normalized forms
of the stripped input lines, dropping a line exactly when its stripped raw
length is ≤ 3 — the length check runs before normalization, so entries of
normalized length ≤ 3 can occur. -/
theorem claim4_amended :
    ∀ (lines : List (List Char)) (x : List Char),
      x ∈ cargar_filtro_txt lines ↔
        ∃ l ∈ lines, 3 < (pyStrip l).length ∧ x = normalizar (pyStrip l) := by
  intro lines x
  unfold cargar_filtro_txt
  rw [cargar_mem_go]
  simp

/-- C4 (counterexample): the 4-character line `"AÑO"` written with a
combining tilde (A, N, U+0303, O) passes the raw length check `> 3`, yet
its normalized form `"ANO"` has length 3 — so the resulting set holds an
entry whose normalized length is not at least 4, contradicting the claim
that a line is dropped if and only if its normalized length is ≤ 3. -/
theorem claim4_cex :
    ∃ e ∈ cargar_filtro_txt [['A', 'N', Char.ofNat 0x303, 'O']],
      (normalizar e).length ≤ 3 :=
  ⟨['A', 'N', 'O'], by decide, by decide⟩

/-! ## Facts about the `info_adicional` dictionary and its two passes -/

lemma dictGet_dictSet (d : Dict) (k v key : List Char) :
    dictGet? (dictSet d k v) key = if key = k then some v else dictGet? d key := by
  induction d with
  | nil =>
    by_cases h : key = k
    · subst h; simp [dictSet, dictGet?]
    · simp [dictSet, dictGet?, h, Ne.symm h]
  | cons p rest ih =>
    obtain ⟨a, b⟩ := p
    by_cases hak : a = k
    · subst hak
      simp only [dictSet, if_pos rfl]
      by_cases h : key = a
      · subst h; simp [dictGet?]
      · simp [dictGet?, h, Ne.symm h]
    · simp only [dictSet, if_neg hak]
      by_cases h : a = key
      · subst h
        simp [dictGet?, hak, Ne.symm hak]
      · simp [dictGet?, h, ih]

/-- The dictionary invariant C5 needs: every one of the five keys is
present, holding the sentinel or a text of the document. -/
def InvDict (T : List (List Char)) (d : Dict) : Prop :=
  ∀ k ∈ fiveKeys, ∃ v, dictGet? d k = some v ∧ (v = SENTINEL ∨ v ∈ T)

lemma invDict_defaults (T : List (List Char)) : InvDict T infoDefaults := by
  intro k hk
  simp only [fiveKeys, List.mem_cons, List.not_mem_nil, or_false] at hk
  rcases hk with rfl | rfl | rfl | rfl | rfl <;>
    exact ⟨SENTINEL, by decide, Or.inl rfl⟩

lemma invDict_set {T : List (List Char)} {d : Dict} {k v : List Char}
    (hd : InvDict T d) (hv : v = SENTINEL ∨ v ∈ T) :
    InvDict T (dictSet d k v) := by
  intro key hkey
  rw [dictGet_dictSet]
  by_cases h : key = k
  · rw [if_pos h]
    exact ⟨v, rfl, hv⟩
  · rw [if_neg h]
    exact hd key hkey

lemma invDict_acordeon {T : List (List Char)} :
    ∀ (items : List AccordionItem) (d : Dict),
      (∀ i ∈ items, ∀ c, i.content = some c → c ∈ T) → InvDict T d →
      InvDict T (items.foldl acordeonStep d) := by
  intro items
  induction items with
  | nil => intro d _ hd; exact hd
  | cons i is ih =>
    intro d hT hd
    rw [List.foldl_cons]
    refine ih _ (fun j hj c hc => hT j (List.mem_cons_of_mem _ hj) c hc) ?_
    cases ht : i.title with
    | none => simpa [acordeonStep, ht] using hd
    | some t =>
      cases hc : i.content with
      | none => simpa [acordeonStep, ht, hc] using hd
      | some c =>
        have hcT : c ∈ T := hT i (List.mem_cons_self _ _) c hc
        simp only [acordeonStep, ht, hc]
        split_ifs <;>
          first
            | exact invDict_set hd (Or.inr hcT)
            | exact hd

lemma invDict_tabla {T : List (List Char)} :
    ∀ (rows : List AttrRow) (d : Dict),
      (∀ r ∈ rows, ∀ c, r.td = some c → c ∈ T) → InvDict T d →
      InvDict T (rows.foldl tablaStep d) := by
  intro rows
  induction rows with
  | nil => intro d _ hd; exact hd
  | cons r rs ih =>
    intro d hT hd
    rw [List.foldl_cons]
    refine ih _ (fun j hj c hc => hT j (List.mem_cons_of_mem _ hj) c hc) ?_
    cases ht : r.th with
    | none => simpa [tablaStep, ht] using hd
    | some thT =>
      cases hc : r.td with
      | none => simpa [tablaStep, ht, hc] using hd
      | some valor =>
        have hcT : valor ∈ T := hT r (List.mem_cons_self _ _) valor hc
        simp only [tablaStep, ht, hc]
        split_ifs <;>
          first
            | exact invDict_set hd (Or.inr hcT)
            | exact hd

/-- All texts a document's two passes can pull a value from: accordion
contents and attribute-table values. -/
def docTexts (soup : Option Document) : List (List Char) :=
  match soup with
  | none => []
  | some d =>
    d.accordions.filterMap (fun i => i.content) ++ d.attrRows.filterMap (fun r => r.td)

/-- C5: the detail extraction always yields a dictionary in which each of
the five detail keys is present, holding the sentinel or a text extracted
from the document; a worker record's `info` is exactly that dictionary; a
failed fetch and a document with neither an accordion nor an attributes
table both yield the all-sentinel dictionary. -/
theorem claim5_all_fields :
    (∀ (soup : Option Document) (k : List Char), k ∈ fiveKeys →
      ∃ v, dictGet? (extraerInfo soup) k = some v ∧ (v = SENTINEL ∨ v ∈ docTexts soup))
  ∧ (∀ (lista : List (List Char)) (fetch : List Char → Option Document)
      (datos : DatosBase) (r : Registro) (log : List (List Char)),
      procesar_producto_individual lista fetch datos = (some r, log) →
      r.info = extraerInfo (fetch datos.url))
  ∧ extraerInfo none = infoDefaults
  ∧ (∀ b : Bool, extraerInfo (some ⟨[], [], [], b⟩) = infoDefaults) := by
  refine ⟨?_, ?_, rfl, fun b => rfl⟩
  · intro soup k hk
    cases soup with
    | none => exact invDict_defaults (docTexts none) k hk
    | some doc =>
      have h1 : InvDict (docTexts (some doc)) (doc.accordions.foldl acordeonStep infoDefaults) :=
        invDict_acordeon doc.accordions infoDefaults
          (fun i hi c hc =>
            List.mem_append_left _ (List.mem_filterMap.mpr ⟨i, hi, by simp [hc]⟩))
          (invDict_defaults _)
      exact invDict_tabla doc.attrRows _
        (fun r hr c hc =>
          List.mem_append_right _ (List.mem_filterMap.mpr ⟨r, hr, by simp [hc]⟩))
        h1 k hk
  · intro lista fetch datos r log h
    unfold procesar_producto_individual at h
    split_ifs at h with hc
    · rw [Prod.mk.injEq, Option.some.injEq] at h
      rw [← h.1]
    · rw [Prod.mk.injEq] at h
      exact absurd h.1 (by simp)

lemma tablaStep_comp (rr : AttrRow) (info : Dict)
    (hne : dictGet? info kComposicion ≠ some SENTINEL) :
    dictGet? (tablaStep info rr) kComposicion = dictGet? info kComposicion := by
  cases ht : rr.th with
  | none => simp [tablaStep, ht]
  | some thT =>
    cases hc : rr.td with
    | none => simp [tablaStep, ht, hc]
    | some valor =>
      simp only [tablaStep, ht, hc]
      split_ifs with h1 h2
      · rw [dictGet_dictSet, if_neg (by decide)]
      · exfalso
        rw [Bool.and_eq_true] at h2
        exact hne (by simpa using h2.2)
      · rfl

lemma tabla_comp_preserved :
    ∀ (rows : List AttrRow) (info : Dict),
      dictGet? info kComposicion ≠ some SENTINEL →
      dictGet? (rows.foldl tablaStep info) kComposicion = dictGet? info kComposicion := by
  intro rows
  induction rows with
  | nil => intro info _; rfl
  | cons rr rs ih =>
    intro info hne
    rw [List.foldl_cons]
    have key := tablaStep_comp rr info hne
    have hne2 : dictGet? (tablaStep info rr) kComposicion ≠ some SENTINEL := by
      rw [key]; exact hne
    rw [ih _ hne2, key]

/-- C7 (amended): in the attributes-table pass, a non-sentinel composition
value is never overridden by the table; a row whose lowered label contains
`"registro"` sets the registration field to the row's value; a row whose
lowered label does not contain `"registro"` but contains `"composici"`
sets the composition field only while it still holds the sentinel.  (The
source tests only `'registro'`, never `'sanitario'`, and the two label
tests form an `if`/`elif` chain.) -/
theorem claim7_amended :
    (∀ (rows : List AttrRow) (info : Dict),
      dictGet? info kComposicion ≠ some SENTINEL →
      dictGet? (rows.foldl tablaStep info) kComposicion = dictGet? info kComposicion)
  ∧ (∀ (info : Dict) (l v : List Char),
      containsSub "registro".data (pyLower l) = true →
      dictGet? (tablaStep info ⟨some l, some v⟩) kRegistro = some v)
  ∧ (∀ (info : Dict) (l v : List Char),
      containsSub "registro".data (pyLower l) = false →
      containsSub "composici".data (pyLower l) = true →
      dictGet? info kComposicion = some SENTINEL →
      dictGet? (tablaStep info ⟨some l, some v⟩) kComposicion = some v) := by
  refine ⟨tabla_comp_preserved, ?_, ?_⟩
  · intro info l v h
    simp only [tablaStep]
    rw [if_pos h, dictGet_dictSet, if_pos rfl]
  · intro info l v h1 h2 h3
    simp only [tablaStep]
    rw [if_neg (by simp [h1]), if_pos (by simp [h2, h3]), dictGet_dictSet, if_pos rfl]

/-- C7 (counterexample): a table row labelled `"Sanitario"` with value
`"E-12345"` leaves the registration field at the sentinel — the code tests
the label only for `'registro'`, so a label containing `"sanitario"` does
not set the registration field, contrary to the claim. -/
theorem claim7_cex :
    dictGet? (extraerInfo (some
        ⟨[], [⟨some "Sanitario".data, some "E-12345".data⟩], [], false⟩)) kRegistro
      = some SENTINEL
  ∧ SENTINEL ≠ "E-12345".data := by
  exact ⟨by decide, by decide⟩

/-! ## Facts about the paginator and the main flow -/

/-- Page `n` of a category was fetched successfully, had at least one
product card, and had a next-page affordance. -/
def goodPage (fetch : List Char → Option Document) (urlCat : List Char) (n : Nat) : Prop :=
  ∃ soup, fetch (pageURL urlCat n) = some soup ∧ soup.products ≠ [] ∧ soup.hasNext = true

lemma catLoop_pages (lista : List (List Char)) (fetch : List Char → Option Document)
    (urlCat nomCat : List Char) :
    ∀ (fuel page m : Nat) (u : List Char),
      (m, u) ∈ (catLoop lista fetch urlCat nomCat fuel page).pagesFetched →
      page ≤ m ∧ m ≤ MAX_PAGES ∧ u = pageURL urlCat m ∧
        (page < m → goodPage fetch urlCat (m - 1)) := by
  intro fuel
  induction fuel with
  | zero =>
    intro page m u h
    simp [catLoop] at h
  | succ f ih =>
    intro page m u h
    rw [catLoop] at h
    by_cases hpg : MAX_PAGES < page
    · rw [if_pos hpg] at h
      simp at h
    · rw [if_neg hpg] at h
      split at h
      · simp at h
        obtain ⟨rfl, rfl⟩ := h
        exact ⟨le_refl _, Nat.le_of_not_lt hpg, rfl, fun hlt => absurd hlt (lt_irrefl _)⟩
      · rename_i soup hf
        by_cases hemp : soup.products.isEmpty
        · rw [if_pos hemp] at h
          simp at h
          obtain ⟨rfl, rfl⟩ := h
          exact ⟨le_refl _, Nat.le_of_not_lt hpg, rfl, fun hlt => absurd hlt (lt_irrefl _)⟩
        · rw [if_neg hemp] at h
          by_cases hnext : soup.hasNext
          · rw [if_pos hnext] at h
            simp only [appendCR] at h
            rcases List.mem_append.mp h with h1 | h1
            · simp at h1
              obtain ⟨rfl, rfl⟩ := h1
              exact ⟨le_refl _, Nat.le_of_not_lt hpg, rfl, fun hlt => absurd hlt (lt_irrefl _)⟩
            · obtain ⟨h2, h3, h4, h5⟩ := ih (page + 1) m u h1
              refine ⟨le_trans (Nat.le_succ page) h2, h3, h4, ?_⟩
              intro _
              by_cases hm : page + 1 < m
              · exact h5 hm
              · have hm1 : m = page + 1 := le_antisymm (Nat.le_of_not_lt hm) h2
                subst hm1
                have hprod : soup.products ≠ [] := by
                  intro hz
                  rw [hz] at hemp
                  exact hemp rfl
                simpa using ⟨soup, hf, hprod, hnext⟩
          · rw [if_neg hnext] at h
            simp at h
            obtain ⟨rfl, rfl⟩ := h
            exact ⟨le_refl _, Nat.le_of_not_lt hpg, rfl, fun hlt => absurd hlt (lt_irrefl _)⟩

/-- The synthetic two-page category of C6. -/
def scen6Cat : List Char := "https://tienda.example/c/botica-online/".data

def scen6Lista : List (List Char) := ["PARACETAMOL".data, "IBUPROFENO".data]

/-- Page 1: three products, two of which match the filter. -/
def scen6P1 : Document :=
  { accordions := [], attrRows := [],
    products :=
      [⟨some ("Paracetamol 500 mg".data, "https://tienda.example/p/para500/".data),
        some "S/ 12.50".data⟩,
       ⟨some ("Ibuprofeno 400 mg".data, "https://tienda.example/p/ibu400/".data),
        some "S/ 10.00 - S/ 20.00".data⟩,
       ⟨some ("Chocolate con leche".data, "https://tienda.example/p/choco/".data),
        some "S/ 5.00".data⟩],
    hasNext := true }

/-- Page 2: an empty product grid. -/
def scen6P2 : Document := ⟨[], [], [], false⟩

/-- The oracle of the synthetic scenario: the two listing pages exist,
every other URL (detail pages included) fails. -/
def scen6Fetch : List Char → Option Document := fun u =>
  if u = pageURL scen6Cat 1 then some scen6P1
  else if u = pageURL scen6Cat 2 then some scen6P2
  else none

/-- C6: page N+1 is requested only if page N was fetched successfully with
at least one product card and a next-page affordance and N+1 is within the
ceiling of 100; page 1 uses the bare category URL and page N > 1 appends
the pagination path segment; and in the synthetic two-page scenario
exactly 2 records are emitted and only pages 1 and 2 are requested. -/
theorem claim6_paginator :
    (∀ (lista : List (List Char)) (fetch : List Char → Option Document)
      (urlCat : List Char) (N : Nat), 1 ≤ N →
      (N + 1, pageURL urlCat (N + 1)) ∈ (procesar_categoria lista fetch urlCat).pagesFetched →
      N + 1 ≤ 100 ∧ goodPage fetch urlCat N)
  ∧ (∀ urlCat : List Char, pageURL urlCat 1 = urlCat)
  ∧ (∀ (urlCat : List Char) (n : Nat), 1 < n →
      pageURL urlCat n = urlCat ++ "page/".data ++ (Nat.repr n).data ++ "/".data)
  ∧ (procesar_categoria scen6Lista scen6Fetch scen6Cat).records.length = 2
  ∧ (procesar_categoria scen6Lista scen6Fetch scen6Cat).pagesFetched.map Prod.fst = [1, 2] := by
  refine ⟨?_, fun urlCat => rfl, ?_, by decide, by decide⟩
  · intro lista fetch urlCat N hN hmem
    unfold procesar_categoria at hmem
    obtain ⟨_, h2, _, h4⟩ :=
      catLoop_pages lista fetch urlCat (nombreCategoria urlCat) (MAX_PAGES + 1) 1 (N + 1) _ hmem
    refine ⟨h2, ?_⟩
    have := h4 (by omega)
    simpa using this
  · intro urlCat n hn
    unfold pageURL
    rw [if_neg (by omega)]

lemma foldl_append_join {α β : Type} (f : α → List β) :
    ∀ (l : List α) (acc : List β),
      l.foldl (fun a c => a ++ f c) acc = acc ++ (l.map f).flatten := by
  intro l
  induction l with
  | nil => intro acc; simp
  | cons c cs ih =>
    intro acc
    rw [List.foldl_cons, ih, List.map_cons, List.flatten_cons, List.append_assoc]

/-- Two categories whose single listing pages both carry the same product. -/
def cex1Lista : List (List Char) := ["PARACETAMOL".data]

def cex1CatA : List Char := "https://tienda.example/c/dolor/".data

def cex1CatB : List Char := "https://tienda.example/c/fiebre/".data

/-- The shared detail-page URL. -/
def cex1URL : List Char := "https://tienda.example/p/para500/".data

/-- The one-page listing both categories serve: a single matching product
pointing at `cex1URL`, no next page. -/
def cex1Doc : Document :=
  ⟨[], [], [⟨some ("Paracetamol 500 mg".data, cex1URL), some "S/ 12.50".data⟩], false⟩

def cex1Fetch : List Char → Option Document := fun u =>
  if u = cex1CatA then some cex1Doc
  else if u = cex1CatB then some cex1Doc
  else none

/-- C1 (counterexample): with two categories both listing the product URL
`cex1URL`, the final collection holds two records for that URL, not
exactly one — no SeenURLSet and no final keep-first dedup pass exist in
the code. -/
theorem claim1_cex :
    (mainRun cex1Lista cex1Fetch [cex1CatA, cex1CatB]).countP
      (fun r => r.base.url == cex1URL) ≠ 1 := by
  decide

/-- C1 (amended): the run performs no deduplication by URL: the final
collection is exactly the concatenation, in traversal order, of each
category's records — one record per filter-passing candidate occurrence —
so a URL encountered in two categories yields one record per encounter,
the first-encountered category's record first. -/
theorem claim1_amended :
    (∀ (lista : List (List Char)) (fetch : List Char → Option Document)
      (cats : List (List Char)),
      mainRun lista fetch cats
        = (cats.map (fun c => (procesar_categoria lista fetch c).records)).flatten)
  ∧ (mainRun cex1Lista cex1Fetch [cex1CatA, cex1CatB]).map (fun r => r.base.url)
      = [cex1URL, cex1URL]
  ∧ (mainRun cex1Lista cex1Fetch [cex1CatA, cex1CatB]).map (fun r => r.base.categoria)
      = [nombreCategoria cex1CatA, nombreCategoria cex1CatB] := by
  refine ⟨?_, by decide, by decide⟩
  intro lista fetch cats
  unfold mainRun
  rw [foldl_append_join]
  simp
